import Mathlib

/-!
Verification development for the arboviroses platform backend.

This file gives a shallow embedding, in Lean 4, of the core data operations of
the repository and proves (or refutes) the specified properties about them:

* weekly bucketing and aggregation (`backend/scripts/backfill_weekly.py`,
  function `weekify`, and `backend/scripts/build_database.py`, `build_db`);
* the weekly upsert store (`upsert_weekly_cases`, `upsert_weather_weekly`);
* date coercion (`_parse_dates`);
* city-name normalization (`_norm_city_series`, `_canon`);
* the forecast endpoint (`backend/app.py`, `predict`).

Conventions of the embedding:

* Calendar timestamps are integers counting days; day 0 is chosen to be a
  Monday (concretely, 2023-01-02), so the weekday of day `d` is `d % 7`
  with 0 = Monday and 6 = Sunday.
* Python floats are modelled as rationals; pandas missing values (`NaN`/`NULL`)
  as `Option`.
* SQL tables with a unique `(city, date)` key are modelled as functions from
  the key to an optional row value.
-/

namespace Arbo

/-- SQL `COALESCE` on two nullable values: the first argument when it is
non-null, otherwise the second. -/
def coalesce : Option α → Option α → Option α
  | some x, _ => some x
  | none, y => y

theorem coalesce_none_right (x : Option α) : coalesce x none = x := by
  cases x <;> rfl

theorem coalesce_assoc (x y z : Option α) :
    coalesce (coalesce x y) z = coalesce x (coalesce y z) := by
  cases x <;> cases y <;> rfl

theorem coalesce_self_absorb (x y : Option α) :
    coalesce x (coalesce x y) = coalesce x y := by
  cases x <;> cases y <;> rfl

/-! ### Weekly bucketing

`backfill_weekly.weekify` computes
`d["week"] = d[date_col].dt.to_period("W-SUN").dt.start_time`.
A pandas `W-SUN` period is the Monday-to-Sunday week ending on a Sunday, and
`start_time` is its first day.  Hence each timestamp is bucketed to the
Monday on or before it (the start of its Monday-to-Sunday week).

`build_database.build_db` instead computes
`city_df.resample("W-SUN").agg({"total_cases": "sum"})`, which labels each
bin by its right edge, the Sunday on or after the timestamp.
-/

/-- Bucket label used by `weekify`: the start (`start_time`) of the `W-SUN`
period containing day `d`, i.e. the Monday on or before `d`. -/
def weekStart (d : Int) : Int := d - d % 7

/-- Weekday of day `d`; 0 = Monday, ..., 6 = Sunday (day 0 is a Monday). -/
def weekdayOf (d : Int) : Int := d % 7

/-- The Monday weekday index. -/
def mondayIdx : Int := 0

/-- The Sunday weekday index. -/
def sundayIdx : Int := 6

/-- Bucket label used by `build_db`'s `resample("W-SUN")`: the right edge of
the weekly bin, i.e. the Sunday on or after day `d`. -/
def resampleSundayLabel (d : Int) : Int := weekStart d + 6

theorem weekStart_idem (d : Int) : weekStart (weekStart d) = weekStart d := by
  unfold weekStart
  omega

theorem weekdayOf_weekStart (d : Int) : weekdayOf (weekStart d) = mondayIdx := by
  unfold weekdayOf weekStart mondayIdx
  omega

theorem weekdayOf_resampleSundayLabel (d : Int) :
    weekdayOf (resampleSundayLabel d) = sundayIdx := by
  unfold weekdayOf resampleSundayLabel weekStart sundayIdx
  omega

/-! ### The weekly aggregator `weekify`

`weekify(df, date_col, sum_cols, mean_cols)` buckets every row to its week
label, then does `d.groupby([city_col, "week"], as_index=False).agg(agg)`,
where each requested column is reduced by `"sum"` or `"mean"`.  Pandas
`groupby` sorts the output by the group key, ascending (city strings are
compared by code points, then timestamps numerically).  Columns are
aggregated independently, so the embedding carries one value column together
with its aggregation mode; the multi-column calls of the script instantiate
it per column. -/

/-- Aggregation mode of a value column in `weekify` (`"sum"` or `"mean"`). -/
inductive Agg where
  | sum
  | mean
deriving DecidableEq

/-- One input row of `weekify`: a locality, a timestamp (day number) and the
value of the aggregated column. -/
structure SrcRow where
  city : String
  date : Int
  value : ℚ
deriving DecidableEq

/-- Reduce the values of one group (`"sum"` adds them, `"mean"` averages). -/
def aggFn : Agg → List ℚ → ℚ
  | .sum, l => l.sum
  | .mean, l => l.sum / l.length

/-- Code-point lexicographic order on character lists; this is how pandas
(Python) compares the city strings when sorting group keys. -/
def lexLt : List Char → List Char → Bool
  | [], [] => false
  | [], _ :: _ => true
  | _ :: _, [] => false
  | a :: as, b :: bs =>
    if a.toNat < b.toNat then true
    else if b.toNat < a.toNat then false
    else lexLt as bs

/-- Strict order on group keys `(city, week)`: city first, then week. -/
def keyLtb (a b : String × Int) : Bool :=
  lexLt a.1.data b.1.data ||
    (a.1 == b.1 && decide (a.2 < b.2))

/-- Insert a group key into a sorted duplicate-free key list, keeping it
sorted and duplicate-free (the sorted-unique key index of a groupby). -/
def insertKey (k : String × Int) : List (String × Int) → List (String × Int)
  | [] => [k]
  | x :: t =>
    if k = x then x :: t
    else if keyLtb k x then k :: x :: t
    else x :: insertKey k t

/-- The sorted, duplicate-free list of group keys of a row list. -/
def keysOf (rows : List SrcRow) : List (String × Int) :=
  rows.foldl (fun acc r => insertKey (r.city, r.date) acc) []

/-- Rows of `rows` falling in the group of key `k`. -/
def groupRows (rows : List SrcRow) (k : String × Int) : List SrcRow :=
  rows.filter (fun r => r.city == k.1 && r.date == k.2)

/-- The weekly aggregator `weekify` of `backfill_weekly.py`: bucket each row
to the start of its `W-SUN` period, group by `(city, week)` with the output
sorted by group key, and reduce the value column by `agg`.  (The script then
renames the bucket column to `date` and formats it `YYYY-MM-DD`; the
formatting round-trips, so dates stay day numbers here.) -/
def weekify (agg : Agg) (rows : List SrcRow) : List SrcRow :=
  let bucketed := rows.map (fun r => { r with date := weekStart r.date })
  let ks := keysOf bucketed
  ks.map (fun k => ⟨k.1, k.2, aggFn agg ((groupRows bucketed k).map (·.value))⟩)

/-! ### The upsert store

`backfill_weekly.upsert_weekly_cases` executes, per payload row,

```
INSERT INTO weekly_cases (city, date, cases, total_cases) VALUES (?, ?, ?, ?)
ON CONFLICT(city, date) DO UPDATE SET
    cases = excluded.cases,
    total_cases = COALESCE(excluded.total_cases, weekly_cases.total_cases);
```

`upsert_weather_weekly` inserts only the value columns present in the
dataframe (absent columns are stored as NULL on insert) and updates, for each
present column `c`, `c = COALESCE(excluded.c, weather_weekly.c)`; absent
columns are not touched by the update. -/

/-- Stored value columns of one `weekly_cases` row. -/
structure CaseVals where
  cases : Int
  total_cases : Option Int
deriving DecidableEq

/-- One incoming payload row for `weekly_cases`. -/
structure CaseRow where
  city : String
  date : Int
  cases : Int
  total_cases : Option Int
deriving DecidableEq

/-- A `weekly_cases` table: at most one stored row per `(city, date)` key
(the table has `PRIMARY KEY (city, date)` and a unique index). -/
def CasesTable : Type := String × Int → Option CaseVals

/-- Effect of one `weekly_cases` upsert statement on the stored cell of its
key: on conflict, `cases` is overwritten and `total_cases` becomes
`COALESCE(excluded.total_cases, weekly_cases.total_cases)`; on a fresh key
the incoming values are inserted. -/
def caseStep (cell : Option CaseVals) (r : CaseRow) : CaseVals :=
  ⟨r.cases, coalesce r.total_cases (cell.bind (·.total_cases))⟩

/-- Execute one row of the `upsert_weekly_cases` batch. -/
def upsertCaseRow (t : CasesTable) (r : CaseRow) : CasesTable :=
  fun k => if k = (r.city, r.date) then some (caseStep (t k) r) else t k

/-- `upsert_weekly_cases`: execute the upsert statement for every payload row
in order (`con.executemany`). -/
def upsert_weekly_cases (t : CasesTable) (batch : List CaseRow) : CasesTable :=
  batch.foldl upsertCaseRow t

/-- Stored value columns of one `weather_weekly` row; each is independently
nullable (`temp REAL, prec REAL, umid REAL`). -/
structure WeatherVals where
  temp : Option ℚ
  prec : Option ℚ
  umid : Option ℚ
deriving DecidableEq

/-- Which of the three weather value columns are present in the incoming
dataframe (`cols = ["city", "date"] + [c for c in ("temp","prec","umid") if c
in df.columns]`). -/
structure Presence where
  temp : Bool
  prec : Bool
  umid : Bool
deriving DecidableEq

/-- One incoming payload row for `weather_weekly`; a value is only meaningful
for a present column. -/
structure WeatherRow where
  city : String
  date : Int
  temp : Option ℚ
  prec : Option ℚ
  umid : Option ℚ
deriving DecidableEq

/-- A `weather_weekly` table: at most one stored row per `(city, date)` key. -/
def WeatherTable : Type := String × Int → Option WeatherVals

/-- Effect of the upsert on one weather value column.  A present column is
inserted as given and updated with `COALESCE(excluded.c, weather_weekly.c)`;
an absent column is inserted as NULL and left untouched by the update. -/
def weatherField (present : Bool) (incoming stored : Option ℚ) : Option ℚ :=
  if present then coalesce incoming stored else stored

/-- Effect of one `weather_weekly` upsert statement on the stored cell of its
key. -/
def weatherStep (p : Presence) (cell : Option WeatherVals) (r : WeatherRow) :
    WeatherVals :=
  ⟨weatherField p.temp r.temp (cell.bind (·.temp)),
   weatherField p.prec r.prec (cell.bind (·.prec)),
   weatherField p.umid r.umid (cell.bind (·.umid))⟩

/-- Execute one row of the `upsert_weather_weekly` batch. -/
def upsertWeatherRow (p : Presence) (t : WeatherTable) (r : WeatherRow) :
    WeatherTable :=
  fun k => if k = (r.city, r.date) then some (weatherStep p (t k) r) else t k

/-- `upsert_weather_weekly`: execute the upsert statement for every payload
row in order (`con.executemany`), with the column set fixed per batch. -/
def upsert_weather_weekly (p : Presence) (t : WeatherTable)
    (batch : List WeatherRow) : WeatherTable :=
  batch.foldl (upsertWeatherRow p) t

/-! ### Date coercion (`backfill_weekly._parse_dates`)

```
d = pd.to_datetime(series, errors="coerce", dayfirst=False)
if d.isna().mean() > 0.5:
    d = pd.to_datetime(series, errors="coerce", dayfirst=True)
if d.isna().any():
    s2 = series.astype(str).str.replace(r"[^\d\-W]", "", regex=True)
    d2 = pd.to_datetime(s2, errors="coerce")
    d = d.fillna(d2)
return d
```

The three elementwise parsers (`to_datetime` with `dayfirst=False`, with
`dayfirst=True`, and the default parse of the regex-cleaned text) are
parameters of the embedding; `errors="coerce"` makes each return an optional
value per entry. -/

/-- Number of missing entries of a parsed column (`d.isna()` count). -/
def countNone (l : List (Option β)) : Nat :=
  (l.filter Option.isNone).length

/-- `d.fillna(d2)`: keep each parsed entry, filling only the missing ones
from the second pass. -/
def fillna (d d2 : List (Option β)) : List (Option β) :=
  List.zipWith coalesce d d2

/-- The date-coercion routine `_parse_dates`, parameterized by the
month-first parser `p1` (`dayfirst=False`), the day-first parser `p2`
(`dayfirst=True`) and the cleanup parser `p3` (default parse of the entry
with every character outside digits, hyphen and `W` removed).
`d.isna().mean() > 0.5` is rendered as `2 * countNone d1 > xs.length`. -/
def parse_dates (p1 p2 p3 : α → Option β) (xs : List α) : List (Option β) :=
  let d1 := xs.map p1
  let d := if 2 * countNone d1 > xs.length then xs.map p2 else d1
  if d.any Option.isNone then fillna d (xs.map p3) else d

/-! ### City-name normalization (`backfill_weekly.py`)

`_norm_city_series` maps every city string through
`strip() → re.sub(r"\s+", " ", ·) → replace("_", " ") → str.title()`.

`_canon` (used only to canonicalize *column names* when detecting weather
columns) maps a string through Unicode NFKD, drops combining characters,
then `re.sub(r"\s+", " ", ·).strip().lower()`.

The character-level pieces (`str.title`, `str.lower`, NFKD + combining-mark
removal) are modelled for the ASCII and Latin-1 repertoire, which covers the
Portuguese city names the scripts handle. -/

/-- Python regex `\s` (also `str.strip`'s default): space, tab, newline,
vertical tab, form feed, carriage return. -/
def isPySpace (c : Char) : Bool :=
  c = ' ' || c = '\t' || c = '\n' || c = Char.ofNat 11 || c = Char.ofNat 12 || c = '\r'

/-- Python `str.strip()`: drop leading and trailing whitespace. -/
def pyStrip (l : List Char) : List Char :=
  ((l.dropWhile isPySpace).reverse.dropWhile isPySpace).reverse

/-- Replace every maximal whitespace run by a single space
(`re.sub(r"\s+", " ", s)`). -/
def squeezeWs : List Char → List Char
  | [] => []
  | [c] => if isPySpace c then [' '] else [c]
  | c :: d :: t =>
    if isPySpace c && isPySpace d then squeezeWs (d :: t)
    else (if isPySpace c then ' ' else c) :: squeezeWs (d :: t)

/-- Is `c` a cased letter for Python's `str.title`, over ASCII and Latin-1
(Latin-1 letters are `À`..`ÿ` excluding `×` and `÷`; `Ÿ` is the uppercase of
`ÿ`). -/
def pyIsCased (c : Char) : Bool :=
  (('a' ≤ c && c ≤ 'z') || ('A' ≤ c && c ≤ 'Z')) ||
    (0xC0 ≤ c.toNat && c.toNat ≤ 0xFF && c.toNat ≠ 0xD7 && c.toNat ≠ 0xF7) ||
    c.toNat = 0x178

/-- Python `str.lower` on one character (ASCII and Latin-1). -/
def pyLowerChar (c : Char) : Char :=
  if 'A' ≤ c && c ≤ 'Z' then Char.ofNat (c.toNat + 32)
  else if 0xC0 ≤ c.toNat && c.toNat ≤ 0xDE && c.toNat ≠ 0xD7 then
    Char.ofNat (c.toNat + 32)
  else if c.toNat = 0x178 then Char.ofNat 0xFF
  else c

/-- Python `str.upper` on one character (ASCII and Latin-1; `ÿ` uppercases to
`Ÿ`, and `ß` has no single-character uppercase here, matching `title`'s
behaviour on the names involved). -/
def pyUpperChar (c : Char) : Char :=
  if 'a' ≤ c && c ≤ 'z' then Char.ofNat (c.toNat - 32)
  else if 0xE0 ≤ c.toNat && c.toNat ≤ 0xFE && c.toNat ≠ 0xF7 then
    Char.ofNat (c.toNat - 32)
  else if c.toNat = 0xFF then Char.ofNat 0x178
  else c

/-- Python `str.title`, character by character: a cased letter is uppercased
when the previous character is not cased, lowercased otherwise. -/
def pyTitleGo (prevCased : Bool) : List Char → List Char
  | [] => []
  | c :: t =>
    let cased := pyIsCased c
    (if cased then (if prevCased then pyLowerChar c else pyUpperChar c) else c)
      :: pyTitleGo cased t

/-- Python `str.title()` on a character list. -/
def pyTitle (l : List Char) : List Char := pyTitleGo false l

/-- City normalization `_norm_city_series`, on one entry:
`strip`, collapse whitespace, underscores to spaces, then title case. -/
def norm_city (s : String) : String :=
  ⟨pyTitle ((squeezeWs (pyStrip s.data)).map
    (fun c => if c = '_' then ' ' else c))⟩

/-- Net effect, on a Latin-1 character, of NFKD decomposition followed by
removal of combining characters: a Latin-1 letter with a diacritic is
replaced by its base letter; everything else (including `æ`, `ø`, `ð`, `þ`,
`ß`, which NFKD leaves alone) is unchanged. -/
def stripAccent (c : Char) : Char :=
  let n := c.toNat
  if 0xC0 ≤ n && n ≤ 0xC5 then 'A'
  else if n = 0xC7 then 'C'
  else if 0xC8 ≤ n && n ≤ 0xCB then 'E'
  else if 0xCC ≤ n && n ≤ 0xCF then 'I'
  else if n = 0xD1 then 'N'
  else if 0xD2 ≤ n && n ≤ 0xD6 then 'O'
  else if 0xD9 ≤ n && n ≤ 0xDC then 'U'
  else if n = 0xDD then 'Y'
  else if 0xE0 ≤ n && n ≤ 0xE5 then 'a'
  else if n = 0xE7 then 'c'
  else if 0xE8 ≤ n && n ≤ 0xEB then 'e'
  else if 0xEC ≤ n && n ≤ 0xEF then 'i'
  else if n = 0xF1 then 'n'
  else if 0xF2 ≤ n && n ≤ 0xF6 then 'o'
  else if 0xF9 ≤ n && n ≤ 0xFC then 'u'
  else if n = 0xFD || n = 0xFF then 'y'
  else c

/-- The key function `_canon`: NFKD decomposition, drop combining marks,
collapse whitespace, strip, lowercase.  Underscores are left as-is. -/
def canon (s : String) : String :=
  ⟨(pyStrip (squeezeWs (s.data.map stripAccent))).map pyLowerChar⟩

/-! ### The forecast endpoint (`backend/app.py`, `predict`)

The endpoint extracts the weekly case sequence for the requested city (from
the `weekly_cases` table, else from a per-city CSV), zero-pads or truncates
it to `last_weeks` entries, and then either

* runs the pre-trained model on the scaled window, inverse-scales, and clamps
  every value at `0.0`, or
* with no model artifact (or on any exception), returns
  `[max(0.0, round(mean(seq[-4:])))] * 4`.

The response is a JSON object with the single field `prediction_weeks`, or
one of the two error objects produced before any prediction is attempted.

The loaded model is modelled as a function from the (scaled) input window to
the flattened prediction vector, and an sklearn scaler as an elementwise
transform/inverse pair. -/

/-- A loaded model artifact: `model.predict(inp).flatten()` as a function of
the scaled window. -/
def Model : Type := List ℚ → List ℚ

/-- A fitted scaler (`scaler.pkl`): elementwise `transform` and
`inverse_transform` on a single-feature column. -/
structure Scaler where
  transform : ℚ → ℚ
  inverse : ℚ → ℚ

/-- Mean of a nonempty window (`np.mean`): sum over length.  `np.mean` of an
empty window is NaN and the endpoint's subsequent `round(NaN)` raises an
uncaught `ValueError`; that path is modelled by `naiveFallback` returning
`none` before this function is consulted, so `npMean` is only ever applied
to nonempty windows (the `/ 0` convention of `ℚ` at `[]` is unreachable). -/
def npMean (l : List ℚ) : ℚ := l.sum / l.length

/-- Python `round` on a rational: round half to even (banker's rounding). -/
def pyRound (q : ℚ) : Int :=
  let f := q - ⌊q⌋
  if f < 1/2 then ⌊q⌋
  else if 1/2 < f then ⌊q⌋ + 1
  else if Even ⌊q⌋ then ⌊q⌋ else ⌊q⌋ + 1

/-- Python slice `seq[-4:]`: the last four entries (the whole list when it is
shorter). -/
def lastFour (seq : List ℚ) : List ℚ :=
  if seq.length ≤ 4 then seq else seq.drop (seq.length - 4)

/-- Python slice `seq[-L:]` for the truncation branch (`len(seq) ≥ L`);
pydantic's `last_weeks` is an `int`, so `L ≤ 0` is representable:
`seq[-0:]` is the whole list and `seq[-L:]` for negative `L` drops `-L`
entries from the front. -/
def pyTailSlice (seq : List ℚ) (L : Int) : List ℚ :=
  if L ≤ 0 then seq.drop (-L).toNat else seq.drop (seq.length - L.toNat)

/-- The input window of `predict`: the case sequence left-padded with zeros
when shorter than `last_weeks`, else truncated to its last `last_weeks`
entries. -/
def windowOf (L : Int) (seq : List ℚ) : List ℚ :=
  if (seq.length : Int) < L then
    List.replicate (L - seq.length).toNat 0 ++ seq
  else pyTailSlice seq L

/-- The naive fallback of `predict` (no model artifact, or any exception
caught by the blanket handler): `[max(0.0, round(np.mean(seq[-4:])))] * 4`.
(The guard `len(seq) >= 4` in the source only chooses between `seq[-4:]`
and `seq`, which `lastFour` already captures.)  On an empty trimmed window —
reachable when a non-positive `last_weeks` drops the whole history —
`np.mean([])` is NaN and `round(NaN)` raises a `ValueError`; raised inside
the `try` it recurs identically in the `except` handler and escapes
uncaught, which is modelled as `none`. -/
def naiveFallback (window : List ℚ) : Option (List ℚ) :=
  if window = [] then none
  else some (List.replicate 4 (max 0 (pyRound (npMean (lastFour window)) : ℚ)))

/-- The model branch of `predict`: scale the window if a scaler is loaded,
run the model, inverse-scale, and clamp every value with `max(0.0, ·)`. -/
def modelPath (m : Model) (scaler? : Option Scaler) (window : List ℚ) :
    List ℚ :=
  let lastScaled := match scaler? with
    | some s => window.map s.transform
    | none => window
  let pScaled := m lastScaled
  let preds := match scaler? with
    | some s => pScaled.map s.inverse
    | none => pScaled
  preds.map (fun x => max 0 x)

/-- The prediction list computed by `predict` after the window is built
(`none` = an exception escaping the handler).  With a model artifact and
`last_weeks ≥ 1`, the L-length window reshapes to `(1, last_weeks, 1)` and
the model branch runs.  A non-positive `last_weeks` violates the artifact's
fixed input contract (`(lookback, 1)` with `lookback ≥ 1`): the reshape or
the model's shape validation raises, the blanket `except` catches it, and
the handler redoes the naive computation on the same trimmed window.
Without a model artifact the naive fallback runs directly. -/
def predictCore (model? : Option Model) (scaler? : Option Scaler) (L : Int)
    (window : List ℚ) : Option (List ℚ) :=
  match model? with
  | some m =>
    if 1 ≤ L then some (modelPath m scaler? window)
    else naiveFallback window
  | none => naiveFallback window

/-- The JSON response of `POST /api/predict`: one of the two error objects,
or an object with the single field `prediction_weeks`. -/
inductive PredictResponse where
  | error (msg : String)
  | ok (prediction_weeks : List ℚ)
deriving DecidableEq

/-- The CSV fallback data source of `predict` for the requested city:
no readable rows at all, rows without a case column, or a case series. -/
inductive CsvFallback where
  | empty
  | noCasesColumn
  | cases (seq : List ℚ)

/-- The case sequence extracted from the `weekly_cases` query result:
`float(r.get("total_cases", 0))` where `query_weekly_cases` already turned a
NULL count into `0`. -/
def seqOfDb (rows : List (Option Int)) : List ℚ :=
  rows.map (fun o => ((o.getD 0 : Int) : ℚ))

/-- The `predict` endpoint: extract the sequence (database first, then CSV,
with the two early error returns), build the window, and predict.  `none`
models an exception escaping the handler (FastAPI answers 500, not a JSON
response object). -/
def predict (model? : Option Model) (scaler? : Option Scaler) (L : Int)
    (dbRows : List (Option Int)) (csv : CsvFallback) :
    Option PredictResponse :=
  let run := fun (seq : List ℚ) =>
    (predictCore model? scaler? L (windowOf L seq)).map PredictResponse.ok
  if dbRows ≠ [] then run (seqOfDb dbRows)
  else match csv with
    | .empty => some (.error "no data")
    | .noCasesColumn => some (.error "no cases column")
    | .cases seq => run seq

/-! ## Properties of the forecast endpoint -/

theorem windowOf_ne_nil (L : Int) (seq : List ℚ) (hL : 1 ≤ L)
    (hs : seq ≠ []) : windowOf L seq ≠ [] := by
  unfold windowOf
  split
  · simp [hs]
  · next h =>
    unfold pyTailSlice
    rw [if_neg (by omega)]
    intro hcontra
    have hlen := congrArg List.length hcontra
    simp only [List.length_drop, List.length_nil] at hlen
    omega

theorem naiveFallback_some (window : List ℚ) (hw : window ≠ []) :
    naiveFallback window
      = some (List.replicate 4 (max 0 (pyRound (npMean (lastFour window)) : ℚ))) := by
  simp [naiveFallback, hw]

theorem predictCore_some (model? : Option Model) (scaler? : Option Scaler)
    (L : Int) (window : List ℚ) (hL : 1 ≤ L) (hw : window ≠ []) :
    ∃ ps, predictCore model? scaler? L window = some ps := by
  cases model? with
  | none => exact ⟨_, naiveFallback_some window hw⟩
  | some m =>
    exact ⟨modelPath m scaler? window, by simp [predictCore, if_pos hL]⟩

theorem naiveFallback_nonneg (w ps : List ℚ) (x : ℚ)
    (h : naiveFallback w = some ps) (hx : x ∈ ps) : 0 ≤ x := by
  by_cases hw : w = []
  · simp [naiveFallback, hw] at h
  · rw [naiveFallback_some w hw] at h
    obtain rfl := Option.some.inj h
    simp only [List.mem_replicate] at hx
    exact hx.2 ▸ le_max_left 0 _

theorem modelPath_nonneg (m : Model) (scaler? : Option Scaler) (w : List ℚ)
    (x : ℚ) (hx : x ∈ modelPath m scaler? w) : 0 ≤ x := by
  simp only [modelPath, List.mem_map] at hx
  obtain ⟨y, -, rfl⟩ := hx
  exact le_max_left 0 y

theorem predictCore_nonneg (model? : Option Model) (scaler? : Option Scaler)
    (L : Int) (w ps : List ℚ) (h : predictCore model? scaler? L w = some ps)
    (x : ℚ) (hx : x ∈ ps) : 0 ≤ x := by
  cases model? with
  | none => exact naiveFallback_nonneg w ps x h hx
  | some m =>
    rw [predictCore] at h
    split at h
    · obtain rfl := Option.some.inj h
      exact modelPath_nonneg m scaler? w x hx
    · exact naiveFallback_nonneg w ps x h hx

/-- C1, counterexample: a locality with only 5 weekly rows and
`last_weeks = 12` does not make the forecast call fail: the window is
silently left-padded with seven zeros and the call returns a prediction
(the naive 4-week mean of the padded window, rounded), not an error. -/
theorem C1_counterexample :
    predict none none 12 [some 1, some 2, some 3, some 4, some 5] .empty
        = some (PredictResponse.ok [4, 4, 4, 4]) ∧
      windowOf 12 (seqOfDb [some 1, some 2, some 3, some 4, some 5])
        = List.replicate 7 0 ++ [1, 2, 3, 4, 5] := by
  constructor
  · norm_num [predict, predictCore, seqOfDb, naiveFallback, windowOf, lastFour,
      npMean, pyRound, Int.even_iff, List.replicate, Int.toNat_ofNat]
    all_goals decide
  · norm_num [windowOf, seqOfDb]
    all_goals decide

/-- C1, amended: when the stored history has fewer rows than `last_weeks`,
the forecast call does not fail with `InsufficientHistory`; the input window
is silently left-padded with zeros up to the lookback length, and for any
positive `last_weeks` the call still returns a prediction object for any
locality that has data.  A non-positive `last_weeks` that empties the
trimmed window instead makes `round(np.mean([]))` raise an uncaught
`ValueError` — a different failure, exhibited by the last conjunct at
`last_weeks = -1` with a one-row history. -/
theorem C1_zero_padding :
    (∀ (L : Int) (seq : List ℚ), (seq.length : Int) < L →
        windowOf L seq = List.replicate (L - seq.length).toNat 0 ++ seq ∧
          ((windowOf L seq).length : Int) = L) ∧
    (∀ (model? : Option Model) (scaler? : Option Scaler) (L : Int)
        (dbRows : List (Option Int)) (csv : CsvFallback), 1 ≤ L → dbRows ≠ [] →
        ∃ ps, predict model? scaler? L dbRows csv
          = some (PredictResponse.ok ps)) ∧
      predict none none (-1) [some 1] CsvFallback.empty = none := by
  refine ⟨?_, ?_, ?_⟩
  · intro L seq h
    refine ⟨by simp [windowOf, h], ?_⟩
    simp only [windowOf, h, if_pos, List.length_append, List.length_replicate]
    have h0 : (0 : Int) ≤ (seq.length : Int) := Int.natCast_nonneg _
    omega
  · intro model? scaler? L dbRows csv hL h
    have hseq : seqOfDb dbRows ≠ [] := by simp [seqOfDb, h]
    obtain ⟨ps, hps⟩ := predictCore_some model? scaler? L
      (windowOf L (seqOfDb dbRows)) hL (windowOf_ne_nil L _ hL hseq)
    exact ⟨ps, by simp [predict, h, hps]⟩
  · norm_num [predict, predictCore, naiveFallback, seqOfDb, windowOf,
      pyTailSlice]

theorem C1_zero_padding_witness :
    (windowOf 12 [1, 2, 3, 4, 5] = List.replicate 7 0 ++ [1, 2, 3, 4, 5] ∧
        ((windowOf 12 [1, 2, 3, 4, 5]).length : Int) = 12) ∧
      ∃ ps, predict none none 12 [some 1] CsvFallback.empty
          = some (PredictResponse.ok ps) :=
  ⟨by
      have := C1_zero_padding.1 12 [1, 2, 3, 4, 5] (by norm_num)
      simpa using this,
    C1_zero_padding.2.1 none none 12 [some 1] CsvFallback.empty (by norm_num)
      (by simp)⟩

/-- C2, counterexample: with no trained model and history `1, 1, 1, 2`
(`last_weeks = 4`), every returned step is `1.0` — the rounded mean — while
the mean of the last 4 observed weeks is `1.25` and the repeated-last-value
reading would give `2.0`; and the response carries no low-confidence marker,
only the bare `prediction_weeks` array. -/
theorem C2_counterexample :
    predict none none 4 [some 1, some 1, some 1, some 2] .empty
        = some (PredictResponse.ok [1, 1, 1, 1]) ∧
      npMean [1, 1, 1, 2] = 5 / 4 ∧ (1 : ℚ) ≠ 5 / 4 ∧ (1 : ℚ) ≠ 2 := by
  refine ⟨?_, by norm_num [npMean], by norm_num, by norm_num⟩
  norm_num [predict, predictCore, seqOfDb, naiveFallback, windowOf, pyTailSlice,
    lastFour, npMean, pyRound, Int.even_iff, List.replicate, Int.toNat_ofNat]
  all_goals decide

/-- C2, amended: with no trained model artifact and a positive `last_weeks`,
a forecast call for a locality that has data returns, without error, the
naive fallback: the mean of the last 4 entries of the (possibly padded)
window, rounded half-to-even and clamped at zero, repeated for 4 steps; the
response carries no low-confidence marker.  (A non-positive `last_weeks`
that empties the trimmed window makes `round(np.mean([]))` raise an
uncaught `ValueError` inside both the `try` and the `except` handler.) -/
theorem C2_naive_fallback (scaler? : Option Scaler) (L : Int)
    (dbRows : List (Option Int)) (csv : CsvFallback) (hL : 1 ≤ L)
    (h : dbRows ≠ []) :
    ∃ v : ℚ,
      predict none scaler? L dbRows csv
          = some (PredictResponse.ok (List.replicate 4 v)) ∧
        v = max 0 (pyRound (npMean (lastFour (windowOf L (seqOfDb dbRows)))) : ℚ) ∧
        0 ≤ v := by
  refine ⟨_, ?_, rfl, le_max_left 0 _⟩
  have hw : windowOf L (seqOfDb dbRows) ≠ [] :=
    windowOf_ne_nil L _ hL (by simp [seqOfDb, h])
  simp [predict, predictCore, h, naiveFallback_some _ hw]

theorem C2_naive_fallback_witness :
    ∃ v : ℚ,
      predict none none 4 [some 1, some 1, some 1, some 2] CsvFallback.empty
          = some (PredictResponse.ok (List.replicate 4 v)) ∧
        v = max 0 (pyRound (npMean (lastFour
          (windowOf 4 (seqOfDb [some 1, some 1, some 1, some 2])))) : ℚ) ∧
        0 ≤ v :=
  C2_naive_fallback none 4 [some 1, some 1, some 1, some 2] CsvFallback.empty
    (by norm_num) (by simp)

/-- C5, counterexample: the forecast response carries a single
`prediction_weeks` array and no date or percentile-band arrays; on the
no-model path its length is 4 regardless of the request: with
`last_weeks = 7` the returned array still has length 4, not 7. -/
theorem C5_counterexample :
    predict none none 7
        [some 2, some 2, some 2, some 2, some 2, some 2, some 2] .empty
        = some (PredictResponse.ok [2, 2, 2, 2]) ∧
      ([2, 2, 2, 2] : List ℚ).length = 4 ∧ (4 : ℕ) ≠ 7 := by
  refine ⟨?_, by norm_num, by norm_num⟩
  norm_num [predict, predictCore, seqOfDb, naiveFallback, windowOf, pyTailSlice,
    lastFour, npMean, pyRound, Int.even_iff, List.replicate, Int.toNat_ofNat]
  all_goals decide

/-- C5, amended: a successful forecast call returns one array,
`prediction_weeks`; on the no-model path with a positive `last_weeks` it
always has length exactly 4, independent of the request parameters, and no
`dates`, `yhat_p10` or `yhat_p90` arrays exist in the response. -/
theorem C5_naive_length_four (scaler? : Option Scaler) (L : Int)
    (dbRows : List (Option Int)) (csv : CsvFallback) (hL : 1 ≤ L)
    (h : dbRows ≠ []) :
    ∃ ps, predict none scaler? L dbRows csv = some (PredictResponse.ok ps) ∧
      ps.length = 4 := by
  have hw : windowOf L (seqOfDb dbRows) ≠ [] :=
    windowOf_ne_nil L _ hL (by simp [seqOfDb, h])
  refine ⟨List.replicate 4
    (max 0 (pyRound (npMean (lastFour (windowOf L (seqOfDb dbRows)))) : ℚ)),
    ?_, ?_⟩
  · simp [predict, predictCore, h, naiveFallback_some _ hw]
  · simp

theorem C5_naive_length_four_witness :
    ∃ ps, predict none none 7
        [some 2, some 2, some 2, some 2, some 2, some 2, some 2]
        CsvFallback.empty = some (PredictResponse.ok ps) ∧ ps.length = 4 :=
  C5_naive_length_four none 7
    [some 2, some 2, some 2, some 2, some 2, some 2, some 2]
    CsvFallback.empty (by norm_num) (by simp)

/-- C10: every prediction value returned by the forecast endpoint is
non-negative — on the model path each inverse-scaled value is clamped with
`max(0.0, ·)`, and the naive fallback value is clamped the same way. -/
theorem C10_predictions_nonneg (model? : Option Model) (scaler? : Option Scaler)
    (L : Int) (dbRows : List (Option Int)) (csv : CsvFallback) (ps : List ℚ)
    (h : predict model? scaler? L dbRows csv = some (PredictResponse.ok ps)) :
    ∀ x ∈ ps, 0 ≤ x := by
  intro x hx
  have hps : ∃ w, predictCore model? scaler? L w = some ps := by
    by_cases hdb : dbRows = []
    · subst hdb
      cases csv with
      | empty => simp [predict] at h
      | noCasesColumn => simp [predict] at h
      | cases seq =>
        simp only [predict, ne_eq, not_true_eq_false, if_false, reduceIte] at h
        rcases Option.map_eq_some'.1 h with ⟨qs, hqs, hok⟩
        rw [PredictResponse.ok.injEq] at hok
        exact ⟨windowOf L seq, hok ▸ hqs⟩
    · simp only [predict, ne_eq, hdb, not_false_eq_true, if_true, if_pos,
        reduceIte] at h
      rcases Option.map_eq_some'.1 h with ⟨qs, hqs, hok⟩
      rw [PredictResponse.ok.injEq] at hok
      exact ⟨windowOf L (seqOfDb dbRows), hok ▸ hqs⟩
  obtain ⟨w, hw⟩ := hps
  exact predictCore_nonneg model? scaler? L w ps hw x hx

theorem C10_predictions_nonneg_witness :
    (0 : ℚ) ≤ 0 ∧
      predict (some (fun _ => [-5])) none 3 [some 1] CsvFallback.empty
        = some (PredictResponse.ok [0]) :=
  have hok : predict (some (fun _ => [-5])) none 3 [some 1] CsvFallback.empty
      = some (PredictResponse.ok [0]) := by
    norm_num [predict, predictCore, modelPath, seqOfDb, windowOf,
      List.replicate, Int.toNat_ofNat]
  ⟨C10_predictions_nonneg (some (fun _ => [-5])) none 3 [some 1]
      CsvFallback.empty [0] hok 0 (by norm_num), hok⟩

/-! ## Weekday anchor of the weekly labels -/

/-- C7: the bucket label assigned by `weekify` always falls on a Monday —
the `start_time` of a `W-SUN` pandas period — never on the Sunday anchor the
code's own comment (`# domingo`) claims; `build_db`'s `resample("W-SUN")`
labels the same week by its Sunday right edge, so the two producers of
weekly tables label the same timestamp's week differently.  Concretely, day
2 (Wednesday 2023-01-04) is labelled day 0 (Monday 2023-01-02) by `weekify`
and day 6 (Sunday 2023-01-08) by `build_db`. -/
theorem C7_weekify_label_is_monday :
    (∀ d : Int, weekdayOf (weekStart d) = mondayIdx) ∧
      (∀ d : Int, weekdayOf (resampleSundayLabel d) = sundayIdx) ∧
      mondayIdx ≠ sundayIdx ∧
      weekStart 2 = 0 ∧ resampleSundayLabel 2 = 6 ∧
      weekdayOf 0 = mondayIdx ∧ weekdayOf 6 = sundayIdx := by
  refine ⟨weekdayOf_weekStart, weekdayOf_resampleSundayLabel, ?_, ?_, ?_, ?_, ?_⟩
    <;> decide

/-! ## City-name normalization -/

/-- C8, counterexample: the two candidate spellings of Teófilo Otoni do not
normalize to the same name — `_norm_city_series` keeps diacritics, and even
the diacritic-stripping `_canon` key (used only for weather column
detection) distinguishes underscore from space. -/
theorem C8_counterexample :
    norm_city "teofilo_otoni" ≠ norm_city "Teófilo Otoni" ∧
      canon "teofilo_otoni" ≠ canon "Teófilo Otoni" := by
  constructor <;> decide

/-- C8, amended: city normalization is `strip` / collapse whitespace /
underscore-to-space / title-case and preserves diacritics, so
`"teofilo_otoni"` becomes `"Teofilo Otoni"` while `"Teófilo Otoni"` stays
`"Teófilo Otoni"` — two different names; the Unicode-NFKD key `_canon`
strips the accent but keeps underscores distinct from spaces, and is applied
only to column names, not to locality resolution. -/
theorem C8_normalization_behaviour :
    norm_city "teofilo_otoni" = "Teofilo Otoni" ∧
      norm_city "Teófilo Otoni" = "Teófilo Otoni" ∧
      ("Teofilo Otoni" : String) ≠ "Teófilo Otoni" ∧
      canon "Teófilo Otoni" = "teofilo otoni" ∧
      canon "teofilo_otoni" = "teofilo_otoni" := by
  refine ⟨?_, ?_, ?_, ?_, ?_⟩ <;> decide

/-! ## Date coercion -/

theorem fillna_preserves_some (d d2 : List (Option β)) (hl : d.length ≤ d2.length)
    (i : ℕ) (v : β) (h : d[i]? = some (some v)) :
    (fillna d d2)[i]? = some (some v) := by
  induction d generalizing d2 i with
  | nil => simp at h
  | cons a t ih =>
    cases d2 with
    | nil => simp at hl
    | cons b t2 =>
      cases i with
      | zero =>
        simp only [List.getElem?_cons_zero, Option.some.injEq] at h
        simp [fillna, h, coalesce]
      | succ n =>
        simp only [List.getElem?_cons_succ] at h
        simpa [fillna] using ih t2 (by simpa using hl) n h

/-- Instantiation, at the counterexample's entries, of the first pass
`pd.to_datetime(·, errors="coerce", dayfirst=False)`: the placeholder text
`n/a` parses as no date under either convention, while the ambiguous
`03/04/2020` parses month-first as 2020-03-04.  (Entries like `13/05/2020`
are deliberately not used: the real parser falls back to day-first when the
month slot exceeds 12 and succeeds on them.) -/
def mfParse : String → Option Nat :=
  fun s => if s = "03/04/2020" then some 20200304 else none

/-- Instantiation, at the counterexample's entries, of the retry pass
`pd.to_datetime(·, errors="coerce", dayfirst=True)`: `03/04/2020` now
parses day-first as 2020-04-03 and `n/a` still fails. -/
def dfParse : String → Option Nat :=
  fun s => if s = "03/04/2020" then some 20200403 else none

/-- Instantiation, at the counterexample's entries, of the cleanup pass:
the regex strip of every character outside digits, hyphen and `W` reduces
`n/a` to the empty string and `03/04/2020` to the bare digit run
`03042020`, neither of which the default parse accepts. -/
def cleanParse : String → Option Nat := fun _ => none

/-- C9, counterexample: on the series `n/a, n/a, 03/04/2020`, two of the
three entries are unparseable, so more than half of the first (month-first)
pass fails and the whole series is re-parsed day-first — including
`03/04/2020`, which the first pass had successfully parsed as March 4 but
which ends up as April 3: a successful first-pass entry does not keep its
first-pass value. -/
theorem C9_counterexample :
    parse_dates mfParse dfParse cleanParse ["n/a", "n/a", "03/04/2020"]
        = [none, none, some 20200403] ∧
      mfParse "03/04/2020" = some 20200304 ∧ (20200403 : ℕ) ≠ 20200304 := by
  refine ⟨?_, ?_, ?_⟩ <;> decide

/-- C9, amended: the dual pass is per-series, not per-entry.  When at most
half of the first-pass entries fail, entries parsed by the first pass keep
their first-pass value (the final cleanup pass only fills still-missing
entries); but when more than half fail, the entire series is re-parsed with
the other convention and first-pass values are discarded, successful entries
included. -/
theorem C9_series_level_dual_pass (p1 p2 p3 : α → Option β) (xs : List α) :
    (2 * countNone (xs.map p1) ≤ xs.length →
        ∀ (i : ℕ) (v : β), (xs.map p1)[i]? = some (some v) →
          (parse_dates p1 p2 p3 xs)[i]? = some (some v)) ∧
    (xs.length < 2 * countNone (xs.map p1) →
        parse_dates p1 p2 p3 xs =
          if (xs.map p2).any Option.isNone then fillna (xs.map p2) (xs.map p3)
          else xs.map p2) := by
  constructor
  · intro hle i v h
    have hcond : ¬ 2 * countNone (xs.map p1) > xs.length := by omega
    simp only [parse_dates, hcond, if_false, reduceIte]
    by_cases hany : (xs.map p1).any Option.isNone
    · simp only [hany, if_true, reduceIte]
      exact fillna_preserves_some _ _ (by simp) i v h
    · simp only [hany, if_false, reduceIte]
      exact h
  · intro hgt
    have hcond : 2 * countNone (xs.map p1) > xs.length := hgt
    simp only [parse_dates, hcond, if_true, reduceIte]

theorem C9_series_level_dual_pass_witness :
    (parse_dates (fun s : String => if s = "05/06/2020" then some 20200506 else none)
        (fun _ => none) (fun _ => none) ["05/06/2020"])[0]?
      = some (some 20200506) :=
  (C9_series_level_dual_pass
      (fun s : String => if s = "05/06/2020" then some 20200506 else none)
      (fun _ => none) (fun _ => none) ["05/06/2020"]).1
    (by decide) 0 20200506 (by decide)

/-! ## Properties of the upsert store -/

theorem foldl_const (l : List γ) (x : δ) : l.foldl (fun a _ => a) x = x := by
  induction l with
  | nil => rfl
  | cons o t ih => exact ih

theorem foldl_coalesce_shift (l : List (Option γ)) (x : Option γ) :
    l.foldl (fun a o => coalesce o a) x =
      coalesce (l.foldl (fun a o => coalesce o a) none) x := by
  induction l generalizing x with
  | nil => rfl
  | cons o t ih =>
    simp only [List.foldl_cons]
    rw [ih (coalesce o x), ih (coalesce o none), coalesce_assoc,
      coalesce_none_right]

theorem foldl_coalesce_idem (l : List (Option γ)) (x : Option γ) :
    l.foldl (fun a o => coalesce o a) (l.foldl (fun a o => coalesce o a) x) =
      l.foldl (fun a o => coalesce o a) x := by
  rw [foldl_coalesce_shift l x, foldl_coalesce_shift l (coalesce _ x),
    coalesce_self_absorb]

/-- The per-key effect of a `weekly_cases` batch on one stored cell: the
upsert statements of the rows with that key, in order. -/
def cellFoldCases (c : Option CaseVals) (l : List CaseRow) : Option CaseVals :=
  l.foldl (fun c r => some (caseStep c r)) c

theorem upsert_weekly_cases_lookup (batch : List CaseRow) (t : CasesTable)
    (k : String × Int) :
    upsert_weekly_cases t batch k =
      cellFoldCases (t k) (batch.filter (fun r => decide ((r.city, r.date) = k))) := by
  induction batch generalizing t with
  | nil => rfl
  | cons r b ih =>
    show upsert_weekly_cases (upsertCaseRow t r) b k = _
    rw [ih]
    by_cases h : (r.city, r.date) = k
    · have hd : decide ((r.city, r.date) = k) = true := by simp [h]
      simp only [List.filter_cons, hd, if_true, reduceIte]
      have : upsertCaseRow t r k = some (caseStep (t k) r) := by
        simp [upsertCaseRow, h.symm]
      rw [this]
      rfl
    · have hd : decide ((r.city, r.date) = k) = false := by simp [h]
      simp only [List.filter_cons, hd, Bool.false_eq_true, if_false, reduceIte]
      have : upsertCaseRow t r k = t k := by
        simp only [upsertCaseRow, ite_eq_right_iff]
        intro hk
        exact absurd (hk ▸ rfl) h
      rw [this]

/-- The stored `total_cases` of an optional cell. -/
def totalOf (c : Option CaseVals) : Option Int := c.bind (·.total_cases)

theorem totalOf_cellFoldCases (l : List CaseRow) (c : Option CaseVals) :
    totalOf (cellFoldCases c l) =
      (l.map (·.total_cases)).foldl (fun a o => coalesce o a) (totalOf c) := by
  induction l generalizing c with
  | nil => rfl
  | cons r t ih =>
    show totalOf (cellFoldCases (some (caseStep c r)) t) = _
    rw [ih]
    rfl

theorem cellFoldCases_cases_agree (l : List CaseRow) (hl : l ≠ []) :
    ∀ c c', ∃ w w', cellFoldCases c l = some w ∧ cellFoldCases c' l = some w' ∧
      w.cases = w'.cases := by
  induction l with
  | nil => exact absurd rfl hl
  | cons r t ih =>
    intro c c'
    cases t with
    | nil => exact ⟨caseStep c r, caseStep c' r, rfl, rfl, rfl⟩
    | cons r2 t2 =>
      exact ih (by simp) (some (caseStep c r)) (some (caseStep c' r))

theorem cellFoldCases_idem (l : List CaseRow) (c : Option CaseVals) :
    cellFoldCases (cellFoldCases c l) l = cellFoldCases c l := by
  by_cases hl : l = []
  · subst hl
    rfl
  · obtain ⟨w, w', h1, h2, hc⟩ :=
      cellFoldCases_cases_agree l hl (cellFoldCases c l) c
    have htot : totalOf (cellFoldCases (cellFoldCases c l) l) =
        totalOf (cellFoldCases c l) := by
      rw [totalOf_cellFoldCases, totalOf_cellFoldCases]
      exact foldl_coalesce_idem _ _
    rw [h1, h2] at htot
    have htotv : w.total_cases = w'.total_cases := by
      simpa [totalOf] using htot
    rw [h1, h2]
    cases w
    cases w'
    simp_all

/-- The per-key effect of a `weather_weekly` batch on one stored cell. -/
def cellFoldWeather (p : Presence) (c : Option WeatherVals)
    (l : List WeatherRow) : Option WeatherVals :=
  l.foldl (fun c r => some (weatherStep p c r)) c

theorem upsert_weather_weekly_lookup (p : Presence) (batch : List WeatherRow)
    (t : WeatherTable) (k : String × Int) :
    upsert_weather_weekly p t batch k =
      cellFoldWeather p (t k)
        (batch.filter (fun r => decide ((r.city, r.date) = k))) := by
  induction batch generalizing t with
  | nil => rfl
  | cons r b ih =>
    show upsert_weather_weekly p (upsertWeatherRow p t r) b k = _
    rw [ih]
    by_cases h : (r.city, r.date) = k
    · have hd : decide ((r.city, r.date) = k) = true := by simp [h]
      simp only [List.filter_cons, hd, if_true, reduceIte]
      have : upsertWeatherRow p t r k = some (weatherStep p (t k) r) := by
        simp [upsertWeatherRow, h.symm]
      rw [this]
      rfl
    · have hd : decide ((r.city, r.date) = k) = false := by simp [h]
      simp only [List.filter_cons, hd, Bool.false_eq_true, if_false, reduceIte]
      have : upsertWeatherRow p t r k = t k := by
        simp only [upsertWeatherRow, ite_eq_right_iff]
        intro hk
        exact absurd (hk ▸ rfl) h
      rw [this]

theorem foldl_weatherField_idem (present : Bool) (l : List (Option ℚ))
    (x : Option ℚ) :
    l.foldl (fun a o => weatherField present o a)
        (l.foldl (fun a o => weatherField present o a) x) =
      l.foldl (fun a o => weatherField present o a) x := by
  cases present with
  | false => simp only [weatherField, Bool.false_eq_true, if_false, reduceIte,
      foldl_const]
  | true =>
    simp only [weatherField, if_true, reduceIte]
    exact foldl_coalesce_idem l x

/-- The stored `temp` of an optional weather cell. -/
def tempOf (c : Option WeatherVals) : Option ℚ := c.bind (·.temp)

/-- The stored `prec` of an optional weather cell. -/
def precOf (c : Option WeatherVals) : Option ℚ := c.bind (·.prec)

/-- The stored `umid` of an optional weather cell. -/
def umidOf (c : Option WeatherVals) : Option ℚ := c.bind (·.umid)

theorem tempOf_cellFoldWeather (p : Presence) (l : List WeatherRow)
    (c : Option WeatherVals) :
    tempOf (cellFoldWeather p c l) =
      (l.map (·.temp)).foldl (fun a o => weatherField p.temp o a) (tempOf c) := by
  induction l generalizing c with
  | nil => rfl
  | cons r t ih =>
    show tempOf (cellFoldWeather p (some (weatherStep p c r)) t) = _
    rw [ih]
    rfl

theorem precOf_cellFoldWeather (p : Presence) (l : List WeatherRow)
    (c : Option WeatherVals) :
    precOf (cellFoldWeather p c l) =
      (l.map (·.prec)).foldl (fun a o => weatherField p.prec o a) (precOf c) := by
  induction l generalizing c with
  | nil => rfl
  | cons r t ih =>
    show precOf (cellFoldWeather p (some (weatherStep p c r)) t) = _
    rw [ih]
    rfl

theorem umidOf_cellFoldWeather (p : Presence) (l : List WeatherRow)
    (c : Option WeatherVals) :
    umidOf (cellFoldWeather p c l) =
      (l.map (·.umid)).foldl (fun a o => weatherField p.umid o a) (umidOf c) := by
  induction l generalizing c with
  | nil => rfl
  | cons r t ih =>
    show umidOf (cellFoldWeather p (some (weatherStep p c r)) t) = _
    rw [ih]
    rfl

theorem cellFoldWeather_some (p : Presence) (l : List WeatherRow) (hl : l ≠ []) :
    ∀ c, ∃ w, cellFoldWeather p c l = some w := by
  induction l with
  | nil => exact absurd rfl hl
  | cons r t ih =>
    intro c
    cases t with
    | nil => exact ⟨weatherStep p c r, rfl⟩
    | cons r2 t2 => exact ih (by simp) (some (weatherStep p c r))

theorem cellFoldWeather_idem (p : Presence) (l : List WeatherRow)
    (c : Option WeatherVals) :
    cellFoldWeather p (cellFoldWeather p c l) l = cellFoldWeather p c l := by
  by_cases hl : l = []
  · subst hl
    rfl
  · obtain ⟨w, hw⟩ := cellFoldWeather_some p l hl c
    obtain ⟨w', hw'⟩ := cellFoldWeather_some p l hl (cellFoldWeather p c l)
    have ht : tempOf (cellFoldWeather p (cellFoldWeather p c l) l) =
        tempOf (cellFoldWeather p c l) := by
      rw [tempOf_cellFoldWeather, tempOf_cellFoldWeather]
      exact foldl_weatherField_idem _ _ _
    have hp : precOf (cellFoldWeather p (cellFoldWeather p c l) l) =
        precOf (cellFoldWeather p c l) := by
      rw [precOf_cellFoldWeather, precOf_cellFoldWeather]
      exact foldl_weatherField_idem _ _ _
    have hu : umidOf (cellFoldWeather p (cellFoldWeather p c l) l) =
        umidOf (cellFoldWeather p c l) := by
      rw [umidOf_cellFoldWeather, umidOf_cellFoldWeather]
      exact foldl_weatherField_idem _ _ _
    rw [hw'] at ht hp hu
    rw [hw] at ht hp hu
    simp only [tempOf, precOf, umidOf, Option.bind_some] at ht hp hu
    rw [hw', hw]
    cases w
    cases w'
    simp_all

/-- C4: applying the identical batch twice to either weekly table leaves the
table in exactly the state reached by applying it once — the `weekly_cases`
and `weather_weekly` upserts are both idempotent (and, the tables being
keyed functions, no `(city, date)` duplication can arise). -/
theorem C4_upsert_idempotent :
    (∀ (batch : List CaseRow) (t : CasesTable),
        upsert_weekly_cases (upsert_weekly_cases t batch) batch =
          upsert_weekly_cases t batch) ∧
    (∀ (p : Presence) (batch : List WeatherRow) (t : WeatherTable),
        upsert_weather_weekly p (upsert_weather_weekly p t batch) batch =
          upsert_weather_weekly p t batch) := by
  constructor
  · intro batch t
    funext k
    rw [upsert_weekly_cases_lookup, upsert_weekly_cases_lookup]
    exact cellFoldCases_idem _ _
  · intro p batch t
    funext k
    rw [upsert_weather_weekly_lookup, upsert_weather_weekly_lookup]
    exact cellFoldWeather_idem _ _ _

/-- C3: upserting a weather row onto an existing `(city, date)` key (all
three value columns present in the batch) preserves each stored intensity
value whenever the incoming one is null, and overwrites it with the incoming
value otherwise. -/
theorem C3_weather_conflict_policy (t : WeatherTable) (r : WeatherRow)
    (cur : WeatherVals) (h : t (r.city, r.date) = some cur) :
    ∃ new,
      upsert_weather_weekly ⟨true, true, true⟩ t [r] (r.city, r.date) = some new ∧
        (r.temp = none → new.temp = cur.temp) ∧
        (∀ v, r.temp = some v → new.temp = some v) ∧
        (r.prec = none → new.prec = cur.prec) ∧
        (∀ v, r.prec = some v → new.prec = some v) ∧
        (r.umid = none → new.umid = cur.umid) ∧
        (∀ v, r.umid = some v → new.umid = some v) := by
  refine ⟨weatherStep ⟨true, true, true⟩ (some cur) r, ?_, ?_, ?_, ?_, ?_, ?_, ?_⟩
  · show upsertWeatherRow ⟨true, true, true⟩ t r (r.city, r.date) = _
    simp [upsertWeatherRow, h]
  · intro hv
    simp [weatherStep, weatherField, hv, coalesce]
  · intro v hv
    simp [weatherStep, weatherField, hv, coalesce]
  · intro hv
    simp [weatherStep, weatherField, hv, coalesce]
  · intro v hv
    simp [weatherStep, weatherField, hv, coalesce]
  · intro hv
    simp [weatherStep, weatherField, hv, coalesce]
  · intro v hv
    simp [weatherStep, weatherField, hv, coalesce]

/-- Stored weather table for the C3 witness: one row for Teofilo Otoni with
`temp = 25.0`, `prec = 10.0`, `umid = 80.0`. -/
def exampleWeatherTable : WeatherTable :=
  fun k => if k = ("Teofilo Otoni", 0) then some ⟨some 25, some 10, some 80⟩
    else none

theorem C3_weather_conflict_policy_witness :
    ∃ new,
      upsert_weather_weekly ⟨true, true, true⟩ exampleWeatherTable
          [⟨"Teofilo Otoni", 0, none, some 26, none⟩] ("Teofilo Otoni", 0)
        = some new ∧
        new.temp = some 25 ∧ new.prec = some 26 := by
  obtain ⟨new, hnew, htnone, -, -, htsome, -, hunone⟩ :=
    C3_weather_conflict_policy exampleWeatherTable
      ⟨"Teofilo Otoni", 0, none, some 26, none⟩ ⟨some 25, some 10, some 80⟩
      (by simp [exampleWeatherTable])
  exact ⟨new, hnew, htnone rfl, htsome 26 rfl⟩

/-! ## Properties of the weekly aggregator -/

theorem char_toNat_inj (a b : Char) (h : a.toNat = b.toNat) : a = b := by
  have hv : a.val = b.val := by
    apply UInt32.ext
    simpa [Char.toNat] using h
  cases a
  cases b
  simp_all

theorem string_ext (a b : String) (h : a.data = b.data) : a = b := by
  cases a
  cases b
  simp_all

theorem lexLt_irrefl (l : List Char) : lexLt l l = false := by
  induction l with
  | nil => rfl
  | cons a t ih => simp [lexLt, ih]

theorem lexLt_asymm (l1 l2 : List Char) (h : lexLt l1 l2 = true) :
    lexLt l2 l1 = false := by
  induction l1 generalizing l2 with
  | nil =>
    cases l2 with
    | nil => simp [lexLt] at h
    | cons b t2 => simp [lexLt]
  | cons a t ih =>
    cases l2 with
    | nil => simp [lexLt] at h
    | cons b t2 =>
      simp only [lexLt] at h ⊢
      split at h
      · next hab => simp [hab, Nat.lt_asymm hab]
      · split at h
        · simp at h
        · next hab hba =>
          have he : b.toNat = a.toNat := by omega
          simp [he, ih t2 h]

theorem lexLt_conn (l1 l2 : List Char) (h1 : lexLt l1 l2 = false)
    (h2 : lexLt l2 l1 = false) : l1 = l2 := by
  induction l1 generalizing l2 with
  | nil =>
    cases l2 with
    | nil => rfl
    | cons b t2 => simp [lexLt] at h1
  | cons a t ih =>
    cases l2 with
    | nil => simp [lexLt] at h2
    | cons b t2 =>
      simp only [lexLt] at h1 h2
      split at h1
      · simp at h1
      · split at h1
        · next hab hba => simp [hba] at h2
        · next hab hba =>
          have he : a = b := char_toNat_inj a b (by omega)
          subst he
          simp only [lt_irrefl, if_false, reduceIte] at h2
          rw [ih t2 h1 h2]

theorem lexLt_trans (l1 l2 l3 : List Char) (h1 : lexLt l1 l2 = true)
    (h2 : lexLt l2 l3 = true) : lexLt l1 l3 = true := by
  induction l1 generalizing l2 l3 with
  | nil =>
    cases l3 with
    | nil =>
      cases l2 with
      | nil => simp [lexLt] at h1
      | cons b t2 => simp [lexLt] at h2
    | cons c t3 => simp [lexLt]
  | cons a t ih =>
    cases l2 with
    | nil => simp [lexLt] at h1
    | cons b t2 =>
      cases l3 with
      | nil => simp [lexLt] at h2
      | cons c t3 =>
        simp only [lexLt] at h1 h2 ⊢
        split at h1
        · next hab =>
          split at h2
          · next hbc => simp [Nat.lt_trans hab hbc]
          · split at h2
            · simp at h2
            · next hbc hcb =>
              have he : b.toNat = c.toNat := by omega
              simp [he ▸ hab]
        · split at h1
          · simp at h1
          · next hab hba =>
            have he : a.toNat = b.toNat := by omega
            split at h2
            · next hbc => simp [he ▸ hbc]
            · split at h2
              · simp at h2
              · next hbc hcb =>
                have he2 : b.toNat = c.toNat := by omega
                have : ¬ a.toNat < c.toNat := by omega
                simp only [this, if_false, reduceIte]
                have : ¬ c.toNat < a.toNat := by omega
                simp only [this, if_false, reduceIte]
                exact ih t2 t3 h1 h2

theorem keyLtb_irrefl (a : String × Int) : keyLtb a a = false := by
  simp [keyLtb, lexLt_irrefl]

theorem keyLtb_ne (a b : String × Int) (h : keyLtb a b = true) : a ≠ b := by
  intro he
  subst he
  rw [keyLtb_irrefl] at h
  exact Bool.false_ne_true h

theorem keyLtb_total (a b : String × Int) (hab : keyLtb a b = false)
    (hne : a ≠ b) : keyLtb b a = true := by
  simp only [keyLtb, Bool.or_eq_false_iff] at hab
  obtain ⟨hlex, hand⟩ := hab
  by_cases hs : a.1 = b.1
  · have hint : a.2 ≠ b.2 := fun h2 => hne (Prod.ext hs h2)
    have hd : decide (a.2 < b.2) = false := by simpa [hs] using hand
    have hba : b.2 < a.2 := by
      simp only [decide_eq_false_iff_not, not_lt] at hd
      omega
    simp [keyLtb, hs, hba]
  · cases hba : lexLt b.1.data a.1.data with
    | true => simp [keyLtb, hba]
    | false => exact absurd (string_ext a.1 b.1 (lexLt_conn _ _ hlex hba)) hs

theorem keyLtb_trans (a b c : String × Int) (h1 : keyLtb a b = true)
    (h2 : keyLtb b c = true) : keyLtb a c = true := by
  simp only [keyLtb, Bool.or_eq_true, Bool.and_eq_true, beq_iff_eq,
    decide_eq_true_eq] at h1 h2 ⊢
  rcases h1 with h1 | ⟨h1s, h1i⟩
  · rcases h2 with h2 | ⟨h2s, h2i⟩
    · exact Or.inl (lexLt_trans _ _ _ h1 h2)
    · exact Or.inl (h2s ▸ h1)
  · rcases h2 with h2 | ⟨h2s, h2i⟩
    · exact Or.inl (h1s ▸ h2)
    · exact Or.inr ⟨h1s.trans h2s, by omega⟩

theorem keyLtb_asymm (a b : String × Int) (h : keyLtb a b = true) :
    keyLtb b a = false := by
  cases hba : keyLtb b a with
  | false => rfl
  | true =>
    have := keyLtb_trans a b a h hba
    rw [keyLtb_irrefl] at this
    exact absurd this Bool.false_ne_true

theorem insertKey_mem (k x : String × Int) (l : List (String × Int)) :
    x ∈ insertKey k l ↔ x = k ∨ x ∈ l := by
  induction l with
  | nil => simp [insertKey]
  | cons y t ih =>
    simp only [insertKey]
    split
    · next h =>
      subst h
      simp only [List.mem_cons]
      tauto
    · split
      · simp [List.mem_cons]
      · simp only [List.mem_cons, ih]
        tauto

theorem insertKey_pairwise (k : String × Int) (l : List (String × Int))
    (hp : l.Pairwise (fun a b => keyLtb a b = true)) :
    (insertKey k l).Pairwise (fun a b => keyLtb a b = true) := by
  induction l with
  | nil => simp [insertKey]
  | cons y t ih =>
    obtain ⟨hy, ht⟩ := List.pairwise_cons.1 hp
    simp only [insertKey]
    split
    · exact hp
    · next hky =>
      split
      · next hlt =>
        refine List.pairwise_cons.2 ⟨?_, hp⟩
        intro z hz
        rcases List.mem_cons.1 hz with rfl | hz
        · exact hlt
        · exact keyLtb_trans _ _ _ hlt (hy z hz)
      · next hlt =>
        refine List.pairwise_cons.2 ⟨?_, ih ht⟩
        intro z hz
        rcases (insertKey_mem _ z t).1 hz with rfl | hz
        · exact keyLtb_total _ y (Bool.eq_false_iff.2 hlt) hky
        · exact hy z hz

theorem foldl_insert_pairwise (rows : List SrcRow)
    (acc : List (String × Int)) (hacc : acc.Pairwise (fun a b => keyLtb a b = true)) :
    (rows.foldl (fun a r => insertKey (r.city, r.date) a) acc).Pairwise
      (fun a b => keyLtb a b = true) := by
  induction rows generalizing acc with
  | nil => exact hacc
  | cons r t ih => exact ih _ (insertKey_pairwise _ _ hacc)

theorem keysOf_pairwise (rows : List SrcRow) :
    (keysOf rows).Pairwise (fun a b => keyLtb a b = true) :=
  foldl_insert_pairwise rows [] (by simp)

theorem foldl_insert_mem (rows : List SrcRow) (acc : List (String × Int))
    (k : String × Int)
    (h : k ∈ rows.foldl (fun a r => insertKey (r.city, r.date) a) acc) :
    k ∈ acc ∨ ∃ r, r ∈ rows ∧ (r.city, r.date) = k := by
  induction rows generalizing acc with
  | nil => exact Or.inl h
  | cons r t ih =>
    rcases ih _ h with hk | ⟨r', hr', hk⟩
    · rcases (insertKey_mem _ _ _).1 hk with rfl | hk
      · exact Or.inr ⟨r, List.mem_cons_self r t, rfl⟩
      · exact Or.inl hk
    · exact Or.inr ⟨r', List.mem_cons_of_mem r hr', hk⟩

theorem keysOf_mem (rows : List SrcRow) (k : String × Int)
    (h : k ∈ keysOf rows) : ∃ r, r ∈ rows ∧ (r.city, r.date) = k := by
  rcases foldl_insert_mem rows [] k h with hk | hk
  · simp at hk
  · exact hk

theorem insertKey_append (k : String × Int) (acc : List (String × Int))
    (hall : ∀ x ∈ acc, keyLtb x k = true) : insertKey k acc = acc ++ [k] := by
  induction acc with
  | nil => rfl
  | cons y t ih =>
    simp only [insertKey]
    split
    · next h =>
      subst h
      have := hall k (List.mem_cons_self k t)
      rw [keyLtb_irrefl] at this
      exact absurd this Bool.false_ne_true
    · next hne =>
      split
      · next hlt =>
        have hyk := hall y (List.mem_cons_self y t)
        have := keyLtb_trans k y k hlt hyk
        rw [keyLtb_irrefl] at this
        exact absurd this Bool.false_ne_true
      · rw [ih (fun x hx => hall x (List.mem_cons_of_mem y hx))]
        rfl

theorem foldl_insertKey_sorted (l : List (String × Int)) :
    ∀ (acc : List (String × Int)),
      l.Pairwise (fun a b => keyLtb a b = true) →
      acc.Pairwise (fun a b => keyLtb a b = true) →
      (∀ x ∈ acc, ∀ y ∈ l, keyLtb x y = true) →
      l.foldl (fun a k => insertKey k a) acc = acc ++ l := by
  induction l with
  | nil => simp
  | cons k t ih =>
    intro acc hl hacc hcross
    obtain ⟨hk, ht⟩ := List.pairwise_cons.1 hl
    have h1 : insertKey k acc = acc ++ [k] :=
      insertKey_append k acc (fun x hx => hcross x hx k (List.mem_cons_self k t))
    show t.foldl (fun a k => insertKey k a) (insertKey k acc) = acc ++ k :: t
    rw [h1, ih (acc ++ [k]) ht ?_ ?_]
    · simp
    · refine List.pairwise_append.2 ⟨hacc, by simp, ?_⟩
      intro x hx y hy
      rcases List.mem_singleton.1 hy with rfl
      exact hcross x hx y (List.mem_cons_self y t)
    · intro x hx y hy
      rcases List.mem_append.1 hx with hx | hx
      · exact hcross x hx y (List.mem_cons_of_mem k hy)
      · rcases List.mem_singleton.1 hx with rfl
        exact hk y hy

theorem keysOf_nodup (rows : List SrcRow) : (keysOf rows).Nodup :=
  (keysOf_pairwise rows).imp (fun h => keyLtb_ne _ _ h)

theorem filter_singleton_of_nodup (l : List (String × Int))
    (p : String × Int → Bool) (k : String × Int)
    (hp : ∀ x, p x = true ↔ x = k) (hnd : l.Nodup) (hk : k ∈ l) :
    l.filter p = [k] := by
  induction l with
  | nil => simp at hk
  | cons y t ih =>
    obtain ⟨hy, ht⟩ := List.nodup_cons.1 hnd
    rcases List.mem_cons.1 hk with rfl | hkt
    · have hpy : p k = true := (hp k).2 rfl
      rw [List.filter_cons, if_pos hpy]
      have : t.filter p = [] := by
        rw [List.filter_eq_nil_iff]
        intro x hx hpx
        exact hy (((hp x).1 hpx) ▸ hx)
      rw [this]
    · have hne : y ≠ k := fun h => hy (h ▸ hkt)
      have hpy : p y = false := by
        cases hpyv : p y with
        | false => rfl
        | true => exact absurd ((hp y).1 hpyv) hne
      rw [List.filter_cons, if_neg (by simp [hpy])]
      exact ih ht hkt

theorem aggFn_singleton (agg : Agg) (v : ℚ) : aggFn agg [v] = v := by
  cases agg <;> simp [aggFn]

theorem map_id_of_mem (l : List γ) (f : γ → γ) (h : ∀ x ∈ l, f x = x) :
    l.map f = l := by
  induction l with
  | nil => rfl
  | cons x t ih =>
    rw [List.map_cons, h x (List.mem_cons_self x t),
      ih (fun y hy => h y (List.mem_cons_of_mem x hy))]

theorem weekify_dates_fixed (agg : Agg) (rows : List SrcRow) :
    ∀ r ∈ weekify agg rows, weekStart r.date = r.date := by
  intro r hr
  simp only [weekify, List.mem_map] at hr
  obtain ⟨k, hk, rfl⟩ := hr
  obtain ⟨r0, hr0, hkey⟩ := keysOf_mem _ _ hk
  simp only [List.mem_map] at hr0
  obtain ⟨r1, hr1, rfl⟩ := hr0
  have hk2 : k.2 = weekStart r1.date := by
    rw [← hkey]
  show weekStart k.2 = k.2
  rw [hk2, weekStart_idem]

theorem foldl_insertKey_self (l : List (String × Int))
    (hl : l.Pairwise (fun a b => keyLtb a b = true)) :
    l.foldl (fun a k => insertKey k a) [] = l := by
  simpa using foldl_insertKey_sorted l [] hl (by simp) (by simp)

/-- C6, counterexample: a frame whose timestamps all lie on weekly bucket
boundaries (day 0 is a Monday, the `W-SUN` period start, so
`weekStart 0 = 0`) is not returned unchanged when two rows share a
`(city, week)` key: `weekify` merges them into one row and sums the values. -/
theorem C6_counterexample :
    weekify .sum [⟨"A", 0, 1⟩, ⟨"A", 0, 2⟩] = [⟨"A", 0, 3⟩] ∧
      weekStart 0 = 0 ∧
      ([⟨"A", 0, 3⟩] : List SrcRow) ≠ [⟨"A", 0, 1⟩, ⟨"A", 0, 2⟩] := by
  refine ⟨?_, by decide, by simp⟩
  norm_num [weekify, keysOf, insertKey, groupRows, aggFn, weekStart, List.filter]

/-- C6, amended: `weekify` is idempotent on its own output — re-aggregating
any aggregated frame returns it unchanged.  A frame with boundary
timestamps is returned unchanged exactly when it additionally has at most
one row per `(city, week)` and its rows are in sorted group order, i.e. when
it has the shape of a `weekify` output. -/
theorem C6_weekify_idem (agg : Agg) (rows : List SrcRow) :
    weekify agg (weekify agg rows) = weekify agg rows := by
  have hout : weekify agg rows =
      (keysOf (rows.map (fun r => { r with date := weekStart r.date }))).map
        (fun k => ⟨k.1, k.2, aggFn agg ((groupRows
          (rows.map (fun r => { r with date := weekStart r.date })) k).map
            (·.value))⟩) := rfl
  have hfix : ∀ r ∈ weekify agg rows, weekStart r.date = r.date :=
    weekify_dates_fixed agg rows
  have hbuck : (weekify agg rows).map (fun r => { r with date := weekStart r.date })
      = weekify agg rows := by
    apply map_id_of_mem
    intro r hr
    have hd := hfix r hr
    cases r
    simp_all
  have hkeys : keysOf (weekify agg rows) =
      keysOf (rows.map (fun r => { r with date := weekStart r.date })) := by
    rw [hout]
    show List.foldl _ _ _ = _
    rw [List.foldl_map]
    have hfun : (fun (a : List (String × Int)) (k : String × Int) =>
        insertKey (k.1, k.2) a) = fun a k => insertKey k a := by
      funext a k
      rw [Prod.mk.eta]
    show List.foldl (fun (a : List (String × Int)) (k : String × Int) =>
      insertKey (k.1, k.2) a) [] _ = _
    rw [hfun, foldl_insertKey_self _ (keysOf_pairwise _)]
  show (keysOf ((weekify agg rows).map (fun r => { r with date := weekStart r.date }))).map
      (fun k => ⟨k.1, k.2, aggFn agg ((groupRows
        ((weekify agg rows).map (fun r => { r with date := weekStart r.date })) k).map
          (·.value))⟩) = weekify agg rows
  rw [hbuck, hkeys]
  conv_rhs => rw [hout]
  apply List.map_congr_left
  intro k hk
  have hgrp : groupRows (weekify agg rows) k =
      [⟨k.1, k.2, aggFn agg ((groupRows
        (rows.map (fun r => { r with date := weekStart r.date })) k).map (·.value))⟩] := by
    rw [hout]
    show List.filter _ _ = _
    rw [List.filter_map]
    have hps : (keysOf (rows.map (fun r => { r with date := weekStart r.date }))).filter
        ((fun (r : SrcRow) => r.city == k.1 && r.date == k.2) ∘
          (fun (k : String × Int) => (⟨k.1, k.2, aggFn agg ((groupRows
            (rows.map (fun r => { r with date := weekStart r.date })) k).map (·.value))⟩ : SrcRow)))
        = [k] := by
      apply filter_singleton_of_nodup
      · intro x
        simp only [Function.comp_apply, Bool.and_eq_true, beq_iff_eq]
        constructor
        · intro ⟨h1, h2⟩
          exact Prod.ext h1 h2
        · intro h
          subst h
          exact ⟨rfl, rfl⟩
      · exact keysOf_nodup _
      · exact hk
    rw [hps]
    rfl
  rw [hgrp]
  show (⟨k.1, k.2, aggFn agg [aggFn agg ((groupRows
    (rows.map (fun r => { r with date := weekStart r.date })) k).map (·.value))]⟩ : SrcRow) = _
  rw [aggFn_singleton]

end Arbo
